import Mathlib

/-!
Verification of the hwarang HWP text extractor (Rust) against its
natural-language specification.  The Rust sources are shallowly embedded:
byte buffers become `List Nat` (each element a byte value), `u16`/`u32`
arithmetic becomes `Nat` arithmetic with explicit `% 2^w` where the source
wraps or masks, and fallible functions return `Except`.
-/

set_option maxHeartbeats 1000000

namespace Hwarang

/-- Error kinds of the crate (`src/error.rs`), restricted to the variants the
embedded functions can produce.  The `parse` variant carries the three numbers
that the Rust code formats into its message (needed bytes, position,
available bytes). -/
inductive HwpError where
  | ioError : HwpError
  | invalidSignature : HwpError
  | passwordProtected : HwpError
  | invalidRecordHeader : HwpError
  | decryptFailed (detail : String) : HwpError
  | parse (needed : Nat) (pos : Nat) (available : Nat) : HwpError
deriving DecidableEq, Repr

/-- `u32::from_le_bytes [b0,b1,b2,b3]`: little-endian 32-bit value of four
bytes.  Each byte is reduced `% 256` to mirror the `u8` domain. -/
def leU32 (b0 b1 b2 b3 : Nat) : Nat :=
  b0 % 256 + 256 * (b1 % 256) + 65536 * (b2 % 256) + 16777216 * (b3 % 256)

/-- `n.to_le_bytes()` for a 32-bit value: the four little-endian bytes. -/
def le4 (n : Nat) : List Nat :=
  [n % 256, n / 256 % 256, n / 65536 % 256, n / 16777216 % 256]

/-- `u16` value as two little-endian bytes. -/
def le2 (n : Nat) : List Nat :=
  [n % 256, n / 256 % 256]

theorem leU32_le4 (n : Nat) :
    leU32 (n % 256) (n / 256 % 256) (n / 65536 % 256) (n / 16777216 % 256) =
      n % 4294967296 := by
  unfold leU32
  omega

/-- Record header (`src/hwp/record.rs`): 4-byte packed
`tag(10bit) | level(10bit) | size(12bit)`; `size == 4095` signals an
extended 4-byte true size. -/
structure RecordHeader where
  tag_id : Nat
  level : Nat
  size : Nat
deriving DecidableEq, Repr

/-- A record: header plus body bytes (`src/hwp/record.rs`). -/
structure Record where
  header : RecordHeader
  data : List Nat
deriving DecidableEq, Repr

/-- The `while pos + 4 <= len` loop of `read_records`
(`src/hwp/record.rs:83-129`), recursing on the unread suffix.  `pos` is the
absolute position, used only inside the parse-error message.  In addition to
the parsed records it returns the unread suffix left when the loop exits
(fewer than 4 bytes remaining), so that consumption can be stated. -/
def readRecordsLoop : Nat → List Nat → Except HwpError (List Record × List Nat)
  | pos, b0 :: b1 :: b2 :: b3 :: rest =>
    let value := leU32 b0 b1 b2 b3
    let tag_id := value % 1024
    let level := value / 1024 % 1024
    let size := value / 1048576 % 4096
    if size = 4095 then
      match rest with
      | c0 :: c1 :: c2 :: c3 :: rest2 =>
        let size2 := leU32 c0 c1 c2 c3
        if rest2.length < size2 then
          .error (.parse size2 (pos + 8) rest2.length)
        else
          match readRecordsLoop (pos + 8 + size2) (rest2.drop size2) with
          | .error e => .error e
          | .ok (recs, leftover) =>
            .ok (⟨⟨tag_id, level, size2⟩, rest2.take size2⟩ :: recs, leftover)
      | _ => .error .invalidRecordHeader
    else
      if rest.length < size then
        .error (.parse size (pos + 4) rest.length)
      else
        match readRecordsLoop (pos + 4 + size) (rest.drop size) with
        | .error e => .error e
        | .ok (recs, leftover) =>
          .ok (⟨⟨tag_id, level, size⟩, rest.take size⟩ :: recs, leftover)
  | _, other => .ok ([], other)
termination_by _ data => data.length
decreasing_by
  · simp [List.length_drop]; omega
  · simp [List.length_drop]; omega

/-- `read_records` (`src/hwp/record.rs:83-129`): parse a byte buffer into a
record sequence. -/
def read_records (data : List Nat) : Except HwpError (List Record) :=
  (readRecordsLoop 0 data).map Prod.fst

example : read_records [] = .ok [] := by simp [read_records, readRecordsLoop, Except.map]
example : read_records [16, 0] = .ok [] := by simp [read_records, readRecordsLoop, Except.map]

/-! ## Distribution cryptosystem (`src/hwp/crypto.rs`) -/

/-- One LCG advance `seed ← seed * 214013 + 2531011` over wrapping 32-bit
arithmetic, on the 32-bit pattern of the signed register (two's-complement
wrapping multiply/add on an `i32` is exactly `% 2^32` on its bit pattern). -/
def lcgAdvance (seed : Nat) : Nat :=
  (seed * 214013 + 2531011) % 4294967296

/-- The `number == 0` branch of `deobfuscate`: advance the LCG twice, taking
`value = (seed >> 16) & 0x7FFF & 0xFF` after the first advance and
`number = ((seed >> 16) & 0x7FFF & 0xF) + 1` after the second.  On the 32-bit
pattern `n`, the arithmetic shift plus `& 0x7FFF` extracts bits 16..30, which
is `n / 2^16 % 2^15` (sign extension only affects bits ≥ 31 of the shift;
`deobExtract_signed` below proves this).  Returns `(seed, value, number)`. -/
def deobRefresh (seed : Nat) : Nat × Nat × Nat :=
  let s1 := lcgAdvance seed
  let v := s1 / 65536 % 32768 % 256
  let s2 := lcgAdvance s1
  let n := s2 / 65536 % 32768 % 16 + 1
  (s2, v, n)

/-- Signed value of a 32-bit pattern. -/
def toSigned32 (n : Nat) : Int :=
  if n < 2147483648 then (n : Int) else (n : Int) - 4294967296

/-- The masked extraction `(seed >> 16) & 0x7FFF` of the Rust code (arithmetic
shift of the signed register — floor division by `2^16`, which for the
positive divisor is `Int.ediv` — then mask to the low 15 bits, i.e.
`emod 2^15`) agrees with `n / 2^16 % 2^15` on the unsigned pattern,
justifying the `Nat` embedding of `deobRefresh`. -/
theorem deobExtract_signed (n : Nat) (h : n < 4294967296) :
    toSigned32 n / 65536 % 32768 = ((n / 65536 % 32768 : Nat) : Int) := by
  unfold toSigned32
  split <;> omega

/-- The per-byte loop of `deobfuscate` (`src/hwp/crypto.rs:22-37`): state is
`(seed, value, number)`; when the countdown hits zero the state is refreshed
(and, being then at least 1, is decremented to `number - 1` in the same
iteration); a nonzero countdown `k + 1` is decremented to `k`; bytes at index
`i ≥ 4` are XORed with `value`. -/
def deobLoop : Nat → Nat × Nat × Nat → List Nat → List Nat
  | _, _, [] => []
  | i, (seed, _, 0), b :: bs =>
    let st := deobRefresh seed
    (if 4 ≤ i then b % 256 ^^^ st.2.1 else b) :: deobLoop (i + 1) (st.1, st.2.1, st.2.2 - 1) bs
  | i, (seed, value, Nat.succ k), b :: bs =>
    (if 4 ≤ i then b % 256 ^^^ value else b) :: deobLoop (i + 1) (seed, value, k) bs

/-- `deobfuscate` (`src/hwp/crypto.rs:15-38`): seed the LCG from bytes 0..3
little-endian (signed in Rust, but seeding uses only the 32-bit pattern) and
run the loop from index 0 over all bytes.  The Rust parameter type `[u8; 256]`
pins the length to 256; shorter lists (on which the Rust function cannot be
called) are returned unchanged. -/
def deobfuscate (data : List Nat) : List Nat :=
  match data with
  | b0 :: b1 :: b2 :: b3 :: _ =>
    deobLoop 0 (leU32 b0 b1 b2 b3, 0, 0) data
  | _ => data

/-- Spec-side view of the LCG keystream: the list of `len` XOR bytes, produced
cycle by cycle — each refresh yields a `value` repeated `number` times.  The
stream starts at index 0, so the four seed bytes consume cycles without being
XORed, shifting the alignment for byte 4 onward. -/
def maskStream : Nat → Nat → List Nat
  | _, 0 => []
  | seed, Nat.succ m =>
    let st := deobRefresh seed
    List.replicate (min st.2.2 (m + 1)) st.2.1 ++ maskStream st.1 (m + 1 - min st.2.2 (m + 1))
termination_by _ len => len
decreasing_by
  have h1 : 1 ≤ (deobRefresh seed).2.2 := by
    simp [deobRefresh]
  omega

theorem maskStream_zero (seed : Nat) : maskStream seed 0 = [] := by
  rw [maskStream.eq_def]

theorem maskStream_succ (seed m : Nat) :
    maskStream seed (m + 1) =
      List.replicate (min (deobRefresh seed).2.2 (m + 1)) (deobRefresh seed).2.1 ++
        maskStream (deobRefresh seed).1 (m + 1 - min (deobRefresh seed).2.2 (m + 1)) := by
  rw [maskStream.eq_def]

/-- Applying the keystream: byte `i` is XORed with its mask only when
`i ≥ 4`; the mask is consumed either way. -/
def xorFrom : Nat → List Nat → List Nat → List Nat
  | i, m :: ms, b :: bs => (if 4 ≤ i then b % 256 ^^^ m else b) :: xorFrom (i + 1) ms bs
  | _, _, bs => bs

/-- The masks pending from an intermediate loop state: first the leftover
`number` copies of the current `value`, then fresh cycles from `seed`. -/
def masksOf : Nat × Nat × Nat → Nat → List Nat
  | (seed, v, num), len => List.replicate (min num len) v ++ maskStream seed (len - num)

theorem deobLoop_eq_xorFrom (bs : List Nat) :
    ∀ i seed v num, deobLoop i (seed, v, num) bs = xorFrom i (masksOf (seed, v, num) bs.length) bs := by
  induction bs with
  | nil =>
    intro i seed v num
    simp only [deobLoop, masksOf, List.length_nil, Nat.min_zero, List.replicate_zero,
      List.nil_append, Nat.zero_sub, maskStream_zero]
    rfl
  | cons b bs ih =>
    intro i seed v num
    rcases Nat.eq_zero_or_pos num with hnum | hnum
    · subst hnum
      rcases hst : deobRefresh seed with ⟨s2, v2, n2⟩
      have hn2 : 1 ≤ n2 := by
        have h2 := congrArg (fun p => p.2.2) hst
        simp only [deobRefresh] at h2
        omega
      rw [deobLoop, hst]
      simp only
      rw [ih]
      have hrhs : masksOf (seed, v, 0) (b :: bs).length =
          v2 :: masksOf (s2, v2, n2 - 1) bs.length := by
        rw [masksOf, masksOf, List.length_cons]
        simp only [Nat.min_zero, List.replicate_zero, List.nil_append, Nat.sub_zero]
        rw [maskStream_succ, hst]
        dsimp only
        have hmin1 : min n2 (bs.length + 1) = (min (n2 - 1) bs.length) + 1 := by omega
        rw [hmin1]
        have hmin2 : bs.length + 1 - ((min (n2 - 1) bs.length) + 1) = bs.length - (n2 - 1) := by
          omega
        rw [hmin2, List.replicate_succ]
        simp [Nat.zero_min]
      rw [hrhs, xorFrom]
    · obtain ⟨k, rfl⟩ : ∃ k, num = k + 1 := ⟨num - 1, by omega⟩
      rw [deobLoop]
      rw [ih]
      have hrhs : masksOf (seed, v, k + 1) (b :: bs).length =
          v :: masksOf (seed, v, k) bs.length := by
        rw [masksOf, masksOf, List.length_cons]
        have hmin1 : min (k + 1) (bs.length + 1) = (min k bs.length) + 1 := by omega
        have hsub : bs.length + 1 - (k + 1) = bs.length - k := by omega
        rw [hmin1, hsub, List.replicate_succ]
        rfl
      rw [hrhs, xorFrom]

theorem xorFrom_prefix :
    ∀ (bs ms : List Nat) (i k : Nat), i + k ≤ 4 → (xorFrom i ms bs).take k = bs.take k := by
  intro bs
  induction bs with
  | nil =>
    intro ms i k _
    cases ms <;> simp [xorFrom]
  | cons b bs ih =>
    intro ms i k hk
    cases ms with
    | nil => simp [xorFrom]
    | cons m ms =>
      cases k with
      | zero => simp
      | succ k =>
        rw [xorFrom, if_neg (by omega)]
        simp only [List.take_succ_cons]
        rw [ih ms (i + 1) k (by omega)]

theorem masksOf_zero (seed v len : Nat) : masksOf (seed, v, 0) len = maskStream seed len := by
  rw [masksOf]
  simp

/-- C2: `deobfuscate` leaves bytes 0..3 of the 256-byte header unchanged and
XORs every byte at index 4..255 with the LCG keystream byte for that index,
where the stream (`maskStream`) is generated by the MSVC recurrence
`seed * 214013 + 2531011` over wrapping 32-bit arithmetic seeded from bytes
0..3 little-endian, each cycle taking the XOR byte from
`(seed >> 16) & 0x7FFF` after the first advance and the repeat count
`(((seed >> 16) & 0x7FFF) & 0xF) + 1` after the second, and the stream being
consumed from index 0 so that the four seed bytes shift its alignment for
byte 4 onward. -/
theorem deobfuscate_lcg_keystream (data : List Nat) (b0 b1 b2 b3 : Nat) (tail : List Nat)
    (hshape : data = b0 :: b1 :: b2 :: b3 :: tail) (hlen : data.length = 256) :
    deobfuscate data = xorFrom 0 (maskStream (leU32 b0 b1 b2 b3) 256) data ∧
      (deobfuscate data).take 4 = data.take 4 := by
  subst hshape
  have hmain : deobfuscate (b0 :: b1 :: b2 :: b3 :: tail) =
      xorFrom 0 (maskStream (leU32 b0 b1 b2 b3) 256) (b0 :: b1 :: b2 :: b3 :: tail) := by
    have h1 : deobfuscate (b0 :: b1 :: b2 :: b3 :: tail) =
        deobLoop 0 (leU32 b0 b1 b2 b3, 0, 0) (b0 :: b1 :: b2 :: b3 :: tail) := rfl
    rw [h1, deobLoop_eq_xorFrom, masksOf_zero, hlen]
  exact ⟨hmain, by rw [hmain]; exact xorFrom_prefix _ _ 0 4 (by omega)⟩

/-- C2 (witness): the keystream law applied to a concrete 256-byte header. -/
theorem deobfuscate_lcg_keystream_witness :
    deobfuscate (0 :: 0 :: 0 :: 0 :: List.replicate 252 5) =
      xorFrom 0 (maskStream (leU32 0 0 0 0) 256) (0 :: 0 :: 0 :: 0 :: List.replicate 252 5) ∧
      (deobfuscate (0 :: 0 :: 0 :: 0 :: List.replicate 252 5)).take 4 =
        (0 :: 0 :: 0 :: 0 :: List.replicate 252 5).take 4 :=
  deobfuscate_lcg_keystream _ 0 0 0 0 (List.replicate 252 5) rfl
    (by rw [List.length_cons, List.length_cons, List.length_cons, List.length_cons,
      List.length_replicate])

theorem deobLoop_length : ∀ (bs : List Nat) (i : Nat) (st : Nat × Nat × Nat),
    (deobLoop i st bs).length = bs.length := by
  intro bs
  induction bs with
  | nil => intro i st; obtain ⟨s, v, n⟩ := st; cases n <;> rfl
  | cons b bs ih =>
    intro i st
    obtain ⟨s, v, n⟩ := st
    cases n <;> simp [deobLoop, ih]

theorem deobfuscate_length (l : List Nat) : (deobfuscate l).length = l.length := by
  match l with
  | [] | [_] | [_, _] | [_, _, _] => rfl
  | b0 :: b1 :: b2 :: b3 :: tail =>
    show (deobLoop 0 (leU32 b0 b1 b2 b3, 0, 0) (b0 :: b1 :: b2 :: b3 :: tail)).length = _
    rw [deobLoop_length]

/-- Modelled from the spec: the AES-128 block cipher itself lives in the
external `aes`/`ecb` crates, not in this repository, so the keyed block
decryption is taken as a parameter; this helper applies it to each 16-byte
block of the buffer (ECB mode). -/
def ecbBlocks (blockDec : List Nat → List Nat) : List Nat → List Nat
  | [] => []
  | b :: bs => blockDec ((b :: bs).take 16) ++ ecbBlocks blockDec ((b :: bs).drop 16)
termination_by buf => buf.length
decreasing_by
  simp [List.length_drop]
  omega

/-- Modelled from the spec: `decrypt_padded_mut::<NoPadding>` of the `ecb`
crate — absent from this repository — "the remainder length must be a
multiple of 16; otherwise decryption fails". -/
def ecbDecryptNoPad (blockDec : List Nat → List Nat) (buf : List Nat) :
    Except String (List Nat) :=
  if buf.length % 16 = 0 then .ok (ecbBlocks blockDec buf) else .error "block size"

/-- `decrypt_distribution_stream` (`src/hwp/crypto.rs:46-83`), parameterised
by the AES-128 keyed block decryption `blockDec` (see `ecbDecryptNoPad`):
skip the 4-byte record-header prefix, deobfuscate the 256-byte metadata,
take the 16-byte key at `4 + (meta[0] & 0xF)`, and decrypt the remainder in
ECB mode with no padding; an empty remainder returns the empty plaintext
before any AES work.  `new_from_slice` fails only on a key whose length is
not 16. -/
def decrypt_distribution_stream (blockDec : List Nat → List Nat → List Nat)
    (data : List Nat) : Except HwpError (List Nat) :=
  if data.length < 260 then .error (.decryptFailed "Distribution stream too short")
  else
    let meta := deobfuscate ((data.drop 4).take 256)
    let key_offset := 4 + meta.headD 0 % 16
    if 256 < key_offset + 16 then .error (.decryptFailed "Key offset out of range")
    else
      let key := (meta.drop key_offset).take 16
      let encrypted := data.drop 260
      if encrypted = [] then .ok []
      else if key.length = 16 then
        match ecbDecryptNoPad (blockDec key) encrypted with
        | .ok out => .ok out
        | .error _ => .error (.decryptFailed "AES decrypt failed")
      else .error (.decryptFailed "AES key init failed")

/-- C6: for every keyed block cipher, `decrypt_distribution_stream` fails
with `DecryptFailed` on inputs shorter than 260 bytes; returns the empty
byte sequence on inputs of exactly 260 bytes (for every block cipher alike,
so no AES call influences the result); and fails with `DecryptFailed` when
the remainder past byte 260 is not a multiple of 16 bytes. -/
theorem decrypt_distribution_stream_lengths :
    (∀ (blockDec : List Nat → List Nat → List Nat) (data : List Nat),
      data.length < 260 →
      decrypt_distribution_stream blockDec data =
        .error (.decryptFailed "Distribution stream too short")) ∧
    (∀ (blockDec : List Nat → List Nat → List Nat) (data : List Nat),
      data.length = 260 →
      decrypt_distribution_stream blockDec data = .ok []) ∧
    (∀ (blockDec : List Nat → List Nat → List Nat) (data : List Nat),
      260 < data.length → (data.length - 260) % 16 ≠ 0 →
      decrypt_distribution_stream blockDec data =
        .error (.decryptFailed "AES decrypt failed")) := by
  refine ⟨fun blockDec data h => ?_, fun blockDec data h => ?_, fun blockDec data h h16 => ?_⟩
  · rw [decrypt_distribution_stream, if_pos h]
  · rw [decrypt_distribution_stream, if_neg (by omega)]
    rw [if_neg (by
      have := Nat.mod_lt ((deobfuscate ((data.drop 4).take 256)).headD 0) (show 0 < 16 by omega)
      omega)]
    rw [if_pos (List.drop_eq_nil_of_le (by omega))]
  · rw [decrypt_distribution_stream, if_neg (by omega)]
    rw [if_neg (by
      have := Nat.mod_lt ((deobfuscate ((data.drop 4).take 256)).headD 0) (show 0 < 16 by omega)
      omega)]
    rw [if_neg (by
      intro hnil
      have := congrArg List.length hnil
      simp only [List.length_drop, List.length_nil] at this
      omega)]
    have hmeta : (deobfuscate ((data.drop 4).take 256)).length = 256 := by
      rw [deobfuscate_length, List.length_take, List.length_drop]
      omega
    rw [if_pos (by
      rw [List.length_take, List.length_drop, hmeta]
      have := Nat.mod_lt ((deobfuscate ((data.drop 4).take 256)).headD 0) (show 0 < 16 by omega)
      omega)]
    rw [ecbDecryptNoPad, if_neg (by rw [List.length_drop]; exact h16)]

/-- C6 (witness): the three length regimes at concrete inputs (100, 260 and
275 zero bytes), with the identity block cipher standing in for AES. -/
theorem decrypt_distribution_stream_lengths_witness :
    (decrypt_distribution_stream (fun _ b => b) (List.replicate 100 0) =
      .error (.decryptFailed "Distribution stream too short")) ∧
    (decrypt_distribution_stream (fun _ b => b) (List.replicate 260 0) = .ok []) ∧
    (decrypt_distribution_stream (fun _ b => b) (List.replicate 275 0) =
      .error (.decryptFailed "AES decrypt failed")) :=
  ⟨decrypt_distribution_stream_lengths.1 (fun _ b => b) (List.replicate 100 0)
      (by rw [List.length_replicate]; decide),
    decrypt_distribution_stream_lengths.2.1 (fun _ b => b) (List.replicate 260 0)
      (List.length_replicate 260 0),
    decrypt_distribution_stream_lengths.2.2 (fun _ b => b) (List.replicate 275 0)
      (by rw [List.length_replicate]; decide)
      (by rw [List.length_replicate]; decide)⟩

/-! ## FileHeader (`src/hwp/header.rs`) -/

/-- The 32-byte magic `"HWP Document File"` padded with NULs
(`src/hwp/header.rs:8`). -/
def HWP_SIGNATURE : List Nat :=
  [72, 87, 80, 32, 68, 111, 99, 117, 109, 101, 110, 116, 32, 70, 105, 108, 101,
   0, 0, 0, 0, 0, 0, 0, 0, 0, 0, 0, 0, 0, 0, 0]

/-- `FileVersion` (`src/hwp/header.rs:24-41`): four octets unpacked from a
32-bit word, high byte first. -/
structure FileVersion where
  major : Nat
  minor : Nat
  build : Nat
  revision : Nat
deriving DecidableEq, Repr

def FileVersion.from_u32 (v : Nat) : FileVersion :=
  ⟨v / 16777216 % 256, v / 65536 % 256, v / 256 % 256, v % 256⟩

/-- `FileHeader` (`src/hwp/header.rs:15-22`). -/
structure FileHeader where
  version : FileVersion
  compressed : Bool
  password : Bool
  distribution : Bool
  flags : Nat
deriving DecidableEq, Repr

/-- `FileHeader::from_reader` (`src/hwp/header.rs:55-85`) over the stream's
byte list: read and verify the 32-byte signature, read the version and flags
words, and reject password-protected files (flag bit 1).  A `read_exact` /
`read_u32` hitting end of stream is the I/O error. -/
def FileHeader.from_reader (data : List Nat) : Except HwpError FileHeader :=
  if data.length < 32 then .error .ioError
  else if data.take 32 ≠ HWP_SIGNATURE then .error .invalidSignature
  else
    match data.drop 32 with
    | v0 :: v1 :: v2 :: v3 :: rest =>
      let version := FileVersion.from_u32 (leU32 v0 v1 v2 v3)
      match rest with
      | f0 :: f1 :: f2 :: f3 :: _ =>
        let flags := leU32 f0 f1 f2 f3
        if flags / 2 % 2 ≠ 0 then .error .passwordProtected
        else
          .ok ⟨version, decide (flags % 2 ≠ 0), decide (flags / 2 % 2 ≠ 0),
            decide (flags / 4 % 2 ≠ 0), flags⟩
      | _ => .error .ioError
    | _ => .error .ioError

/-- C9: a FileHeader stream with a valid signature whose flags word has bit 1
(the password flag) set parses to the `PasswordProtected` error, and the
result is the same whatever bytes follow the fixed 40-byte header prefix —
only the fixed fields are read before failing, no later stream content
matters. -/
theorem fileheader_password_protected (version flags : Nat) (rest : List Nat)
    (hflags : flags < 4294967296) (hbit : flags / 2 % 2 = 1) :
    FileHeader.from_reader (HWP_SIGNATURE ++ le4 version ++ le4 flags ++ rest) =
        .error .passwordProtected ∧
      FileHeader.from_reader (HWP_SIGNATURE ++ le4 version ++ le4 flags ++ rest) =
        FileHeader.from_reader (HWP_SIGNATURE ++ le4 version ++ le4 flags) := by
  have hstep : ∀ (t : List Nat),
      FileHeader.from_reader (HWP_SIGNATURE ++ le4 version ++ le4 flags ++ t) =
        .error .passwordProtected := by
    intro t
    rw [FileHeader.from_reader]
    rw [if_neg (by simp [HWP_SIGNATURE, le4])]
    rw [if_neg (by
      rw [List.append_assoc, List.append_assoc,
        show (32 : Nat) = HWP_SIGNATURE.length from rfl, List.take_left]
      simp)]
    rw [List.append_assoc, List.append_assoc,
      show (32 : Nat) = HWP_SIGNATURE.length from rfl, List.drop_left]
    simp only [le4, List.cons_append, List.nil_append]
    rw [leU32_le4, Nat.mod_eq_of_lt hflags]
    rw [if_pos (by omega)]
  have h0 := hstep rest
  have h1 : FileHeader.from_reader (HWP_SIGNATURE ++ le4 version ++ le4 flags) =
      .error .passwordProtected := by
    have := hstep []
    simpa using this
  exact ⟨h0, by rw [h0, h1]⟩

/-- C9 (witness): password flag detection on a concrete header (version
5.1.2.7, flags word 2) followed by junk bytes. -/
theorem fileheader_password_protected_witness :
    FileHeader.from_reader (HWP_SIGNATURE ++ le4 83951111 ++ le4 2 ++ [9, 9, 9]) =
        .error .passwordProtected ∧
      FileHeader.from_reader (HWP_SIGNATURE ++ le4 83951111 ++ le4 2 ++ [9, 9, 9]) =
        FileHeader.from_reader (HWP_SIGNATURE ++ le4 83951111 ++ le4 2) :=
  fileheader_password_protected 83951111 2 [9, 9, 9] (by decide) (by decide)

/-! ## PARA_TEXT scanning (`src/hwp/control.rs` — here inlined in
`src/hwp/para_text.rs` — and `src/hwp/para_text.rs`) -/

/-- Character classes of PARA_TEXT 16-bit code units
(`src/hwp/para_text.rs:1-8`). -/
inductive CharType where
  | normal : CharType
  | controlChar : CharType
  | controlInline : CharType
  | controlExtend : CharType
deriving DecidableEq, Repr

/-- `char_type` (`src/hwp/para_text.rs:12-24`): codes above 31 are normal
characters; the extend and inline control sets are explicit; every other low
code is a 2-byte control character. -/
def char_type (code : Nat) : CharType :=
  if 31 < code then CharType.normal
  else if code = 1 ∨ code = 2 ∨ code = 3 ∨ code = 11 ∨ code = 12 ∨ code = 14 ∨ code = 15 ∨
      code = 16 ∨ code = 17 ∨ code = 18 ∨ code = 21 ∨ code = 22 ∨ code = 23 then
    CharType.controlExtend
  else if code = 4 ∨ code = 5 ∨ code = 6 ∨ code = 7 ∨ code = 8 ∨ code = 9 ∨ code = 19 ∨
      code = 20 then
    CharType.controlInline
  else CharType.controlChar

/-- Rust `char::from_u32`: any code point except the surrogate range
`0xD800..=0xDFFF` and values above `0x10FFFF`.  Text is modelled as the list
of Unicode scalar values. -/
def charFromU32 (n : Nat) : Option Nat :=
  if n < 55296 ∨ (57344 ≤ n ∧ n ≤ 1114111) then some n else none

/-- `extract_text` (`src/hwp/para_text.rs:104-151`): scan the 16-bit
little-endian code units of a PARA_TEXT body (the `while pos + 1 < len` loop
needs two more bytes per unit; a trailing odd byte ends the scan), emitting
scalar values into the text and collecting extend-control codes.  Inline and
extend controls skip a 14-byte payload; `List.drop` clamps the skip to the
remaining buffer exactly as `14.min(len - pos)` does. -/
def extract_text : List Nat → List Nat × List Nat
  | b0 :: b1 :: rest =>
    let code := b0 % 256 + 256 * (b1 % 256)
    match char_type code with
    | CharType.normal =>
      let r := extract_text rest
      (match charFromU32 code with
       | some ch => ch :: r.1
       | none => r.1, r.2)
    | CharType.controlChar =>
      let r := extract_text rest
      ((if code = 10 then [10]
        else if code = 13 then []
        else if code = 24 then [45]
        else if code = 30 then [32]
        else if code = 31 then [32]
        else []) ++ r.1, r.2)
    | CharType.controlInline =>
      let r := extract_text (rest.drop 14)
      ((if code = 9 then [9] else []) ++ r.1, r.2)
    | CharType.controlExtend =>
      let r := extract_text (rest.drop 14)
      (r.1, code :: r.2)
  | _ => ([], [])
termination_by data => data.length
decreasing_by
  all_goals simp [List.length_drop]; omega

/-- A text segment (`src/hwp/para_text.rs:37-41`): text plus whether an
extend control follows it. -/
structure TextSegment where
  text : List Nat
  has_control_after : Bool
deriving DecidableEq, Repr

/-- Prepending pending characters onto the segment currently being built —
the head of the remaining segment list. -/
def prependText (cs : List Nat) : List TextSegment → List TextSegment
  | [] => [⟨cs, false⟩]
  | s :: rest => ⟨cs ++ s.text, s.has_control_after⟩ :: rest

/-- `extract_text_segments` (`src/hwp/para_text.rs:47-98`): same scan as
`extract_text`, but an extend control flushes the running text into a segment
with `has_control_after = true`; the final running text becomes a last
segment with the flag off.  The imperative accumulator `current` becomes
prepending onto the head segment of the recursive result. -/
def extract_text_segments : List Nat → List TextSegment
  | b0 :: b1 :: rest =>
    let code := b0 % 256 + 256 * (b1 % 256)
    match char_type code with
    | CharType.normal =>
      prependText
        (match charFromU32 code with
         | some ch => [ch]
         | none => []) (extract_text_segments rest)
    | CharType.controlChar =>
      prependText
        (if code = 10 then [10]
         else if code = 13 then []
         else if code = 24 then [45]
         else if code = 30 then [32]
         else if code = 31 then [32]
         else []) (extract_text_segments rest)
    | CharType.controlInline =>
      prependText (if code = 9 then [9] else []) (extract_text_segments (rest.drop 14))
    | CharType.controlExtend =>
      ⟨[], true⟩ :: extract_text_segments (rest.drop 14)
  | _ => [⟨[], false⟩]
termination_by data => data.length
decreasing_by
  all_goals simp [List.length_drop]; omega

/-- Spec-side counter: the number of code units drawn from the extend-control
set `{1,2,3,11,12,14,15,16,17,18,21,22,23}` encountered while scanning a
PARA_TEXT body (the scan steps over control payloads, so payload bytes are
not misread as code units). -/
def count_extend_controls : List Nat → Nat
  | b0 :: b1 :: rest =>
    let code := b0 % 256 + 256 * (b1 % 256)
    let n := if code ∈ ([1, 2, 3, 11, 12, 14, 15, 16, 17, 18, 21, 22, 23] : List Nat)
      then 1 else 0
    match char_type code with
    | CharType.controlInline => n + count_extend_controls (rest.drop 14)
    | CharType.controlExtend => n + count_extend_controls (rest.drop 14)
    | _ => n + count_extend_controls rest
  | _ => 0
termination_by data => data.length
decreasing_by
  all_goals simp [List.length_drop]; omega

/-- Concatenation of the texts of a segment list, in order. -/
def segTexts : List TextSegment → List Nat
  | [] => []
  | s :: rest => s.text ++ segTexts rest

example : extract_text [65, 0, 66, 0] = ([65, 66], []) := by
  simp [extract_text, char_type, charFromU32]

theorem prependText_segTexts (cs : List Nat) (segs : List TextSegment) :
    segTexts (prependText cs segs) = cs ++ segTexts segs := by
  cases segs <;> simp [prependText, segTexts]

theorem prependText_countP (cs : List Nat) (segs : List TextSegment) :
    List.countP (fun s => s.has_control_after) (prependText cs segs) =
      List.countP (fun s => s.has_control_after) segs := by
  cases segs <;> simp [prependText, List.countP_cons, List.countP_nil]

/-- C10: `extract_text_segments` and `extract_text` are two views of one
scan — concatenating the segment texts in order yields exactly the extracted
text, and the number of segments flagged `has_control_after` equals the
number of collected extend-control codes. -/
theorem segments_refine_extract (data : List Nat) :
    segTexts (extract_text_segments data) = (extract_text data).1 ∧
      List.countP (fun s => s.has_control_after) (extract_text_segments data) =
        (extract_text data).2.length := by
  induction data using extract_text_segments.induct with
  | case1 b0 b1 rest code hct ih =>
    rw [extract_text_segments.eq_1, extract_text.eq_1, hct]
    dsimp only
    cases hcf : charFromU32 (b0 % 256 + 256 * (b1 % 256)) <;>
      simp [prependText_segTexts, prependText_countP, ih.1, ih.2]
  | case2 b0 b1 rest code hct ih =>
    rw [extract_text_segments.eq_1, extract_text.eq_1, hct]
    dsimp only
    simp [prependText_segTexts, prependText_countP, ih.1, ih.2]
  | case3 b0 b1 rest code hct ih =>
    rw [extract_text_segments.eq_1, extract_text.eq_1, hct]
    dsimp only
    simp [prependText_segTexts, prependText_countP, ih.1, ih.2]
  | case4 b0 b1 rest code hct ih =>
    rw [extract_text_segments.eq_1, extract_text.eq_1, hct]
    dsimp only
    simp [segTexts, List.countP_cons, ih.1, ih.2]
  | case5 data hshort =>
    rw [extract_text_segments.eq_2 _ hshort, extract_text.eq_2 _ hshort]
    simp [segTexts, List.countP_cons, List.countP_nil]

/-- The extend-control classification is exactly membership in the 13-code
set the spec lists. -/
theorem char_type_extend_iff (code : Nat) :
    char_type code = CharType.controlExtend ↔
      code ∈ ([1, 2, 3, 11, 12, 14, 15, 16, 17, 18, 21, 22, 23] : List Nat) := by
  by_cases h31 : 31 < code
  · rw [char_type, if_pos h31]
    constructor
    · intro h
      cases h
    · intro h
      exfalso
      fin_cases h <;> omega
  · have hle : code ≤ 31 := by omega
    interval_cases code <;> decide

/-- C5: the number of segments flagged `has_control_after` equals the number
of code units from the extend-control set
`{1,2,3,11,12,14,15,16,17,18,21,22,23}` encountered while scanning the
PARA_TEXT body. -/
theorem segments_count_extend_controls (data : List Nat) :
    List.countP (fun s => s.has_control_after) (extract_text_segments data) =
      count_extend_controls data := by
  induction data using extract_text_segments.induct with
  | case1 b0 b1 rest code hct ih =>
    rw [extract_text_segments.eq_1, count_extend_controls.eq_1, hct]
    dsimp only
    rw [prependText_countP, ih,
      if_neg (fun hm => by rw [(char_type_extend_iff _).2 hm] at hct; cases hct)]
    omega
  | case2 b0 b1 rest code hct ih =>
    rw [extract_text_segments.eq_1, count_extend_controls.eq_1, hct]
    dsimp only
    rw [prependText_countP, ih,
      if_neg (fun hm => by rw [(char_type_extend_iff _).2 hm] at hct; cases hct)]
    omega
  | case3 b0 b1 rest code hct ih =>
    rw [extract_text_segments.eq_1, count_extend_controls.eq_1, hct]
    dsimp only
    rw [prependText_countP, ih,
      if_neg (fun hm => by rw [(char_type_extend_iff _).2 hm] at hct; cases hct)]
    omega
  | case4 b0 b1 rest code hct ih =>
    rw [extract_text_segments.eq_1, count_extend_controls.eq_1, hct]
    dsimp only
    rw [List.countP_cons, ih, if_pos ((char_type_extend_iff _).1 hct)]
    simp
    omega
  | case5 data hshort =>
    rw [extract_text_segments.eq_2 _ hshort, count_extend_controls.eq_2 _ hshort]
    simp [List.countP_cons, List.countP_nil]

theorem extract_text_segments_ne_nil (data : List Nat) :
    extract_text_segments data ≠ [] := by
  induction data using extract_text_segments.induct with
  | case1 b0 b1 rest code hct ih =>
    rw [extract_text_segments.eq_1, hct]
    dsimp only
    cases extract_text_segments rest <;> simp [prependText]
  | case2 b0 b1 rest code hct ih =>
    rw [extract_text_segments.eq_1, hct]
    dsimp only
    cases extract_text_segments rest <;> simp [prependText]
  | case3 b0 b1 rest code hct ih =>
    rw [extract_text_segments.eq_1, hct]
    dsimp only
    cases extract_text_segments (rest.drop 14) <;> simp [prependText]
  | case4 b0 b1 rest code hct ih =>
    rw [extract_text_segments.eq_1, hct]
    simp
  | case5 data hshort =>
    rw [extract_text_segments.eq_2 _ hshort]
    simp

theorem prependText_nil (segs : List TextSegment) (h : segs ≠ []) :
    prependText [] segs = segs := by
  cases segs with
  | nil => exact absurd rfl h
  | cons s rest => simp [prependText]

/-- One scan step of the segmenter on a 16-bit unit `c` (two little-endian
bytes) followed by `rest`. -/
theorem extract_text_segments_step (c : Nat) (rest : List Nat) (hlt : c < 65536) :
    extract_text_segments (le2 c ++ rest) =
      (match char_type c with
      | CharType.normal =>
        prependText
          (match charFromU32 c with
           | some ch => [ch]
           | none => []) (extract_text_segments rest)
      | CharType.controlChar =>
        prependText
          (if c = 10 then [10]
           else if c = 13 then []
           else if c = 24 then [45]
           else if c = 30 then [32]
           else if c = 31 then [32]
           else []) (extract_text_segments rest)
      | CharType.controlInline =>
        prependText (if c = 9 then [9] else []) (extract_text_segments (rest.drop 14))
      | CharType.controlExtend =>
        ⟨[], true⟩ :: extract_text_segments (rest.drop 14)) := by
  have hshape : le2 c ++ rest = (c % 256) :: (c / 256 % 256) :: rest := rfl
  rw [hshape, extract_text_segments.eq_1]
  have hcode : c % 256 % 256 + 256 * (c / 256 % 256 % 256) = c := by omega
  rw [hcode]

/-- One scan step of `extract_text` on a 16-bit unit `c` followed by
`rest`. -/
theorem extract_text_step (c : Nat) (rest : List Nat) (hlt : c < 65536) :
    extract_text (le2 c ++ rest) =
      (match char_type c with
      | CharType.normal =>
        (match charFromU32 c with
         | some ch => ch :: (extract_text rest).1
         | none => (extract_text rest).1, (extract_text rest).2)
      | CharType.controlChar =>
        ((if c = 10 then [10]
          else if c = 13 then []
          else if c = 24 then [45]
          else if c = 30 then [32]
          else if c = 31 then [32]
          else []) ++ (extract_text rest).1, (extract_text rest).2)
      | CharType.controlInline =>
        ((if c = 9 then [9] else []) ++ (extract_text (rest.drop 14)).1,
          (extract_text (rest.drop 14)).2)
      | CharType.controlExtend =>
        ((extract_text (rest.drop 14)).1, c :: (extract_text (rest.drop 14)).2)) := by
  have hshape : le2 c ++ rest = (c % 256) :: (c / 256 % 256) :: rest := rfl
  rw [hshape, extract_text.eq_1]
  have hcode : c % 256 % 256 + 256 * (c / 256 % 256 % 256) = c := by omega
  rw [hcode]

/-- C8: the character emissions of the PARA_TEXT scan — code 10 emits a
newline, 24 a hyphen, 30 and 31 a space, 13 is discarded; inline controls
(here 4,5,6,7,8,19,20 and the tab 9) skip their 14-byte payload and emit a
tab exactly for code 9, with a truncated payload clamped to the remaining
buffer; extend controls emit nothing while skipping their payload. -/
theorem paratext_control_emissions :
    (∀ rest : List Nat, extract_text_segments (le2 10 ++ rest) =
      prependText [10] (extract_text_segments rest)) ∧
    (∀ rest : List Nat, extract_text_segments (le2 24 ++ rest) =
      prependText [45] (extract_text_segments rest)) ∧
    (∀ rest : List Nat, extract_text_segments (le2 30 ++ rest) =
      prependText [32] (extract_text_segments rest)) ∧
    (∀ rest : List Nat, extract_text_segments (le2 31 ++ rest) =
      prependText [32] (extract_text_segments rest)) ∧
    (∀ rest : List Nat, extract_text_segments (le2 13 ++ rest) =
      extract_text_segments rest) ∧
    (∀ (c : Nat) (rest : List Nat), c ∈ ([4, 5, 6, 7, 8, 19, 20] : List Nat) →
      extract_text_segments (le2 c ++ rest) = extract_text_segments (rest.drop 14)) ∧
    (∀ rest : List Nat, extract_text_segments (le2 9 ++ rest) =
      prependText [9] (extract_text_segments (rest.drop 14))) ∧
    (∀ (c : Nat) (rest : List Nat),
      c ∈ ([1, 2, 3, 11, 12, 14, 15, 16, 17, 18, 21, 22, 23] : List Nat) →
      extract_text_segments (le2 c ++ rest) =
        ⟨[], true⟩ :: extract_text_segments (rest.drop 14)) ∧
    (∀ rest : List Nat, rest.length ≤ 14 →
      extract_text_segments (le2 9 ++ rest) = [⟨[9], false⟩]) := by
  refine ⟨fun rest => ?_, fun rest => ?_, fun rest => ?_, fun rest => ?_, fun rest => ?_,
    fun c rest hc => ?_, fun rest => ?_, fun c rest hc => ?_, fun rest hlen => ?_⟩
  · rw [extract_text_segments_step 10 rest (by omega)]
    rfl
  · rw [extract_text_segments_step 24 rest (by omega)]
    rfl
  · rw [extract_text_segments_step 30 rest (by omega)]
    rfl
  · rw [extract_text_segments_step 31 rest (by omega)]
    rfl
  · rw [extract_text_segments_step 13 rest (by omega)]
    show prependText [] (extract_text_segments rest) = extract_text_segments rest
    exact prependText_nil _ (extract_text_segments_ne_nil rest)
  · fin_cases hc
    all_goals
      rw [extract_text_segments_step _ rest (by omega)]
      show prependText [] (extract_text_segments (List.drop 14 rest)) =
        extract_text_segments (List.drop 14 rest)
      exact prependText_nil _ (extract_text_segments_ne_nil _)
  · rw [extract_text_segments_step 9 rest (by omega)]
    rfl
  · fin_cases hc <;> rw [extract_text_segments_step _ rest (by omega)] <;> rfl
  · rw [extract_text_segments_step 9 rest (by omega),
      List.drop_eq_nil_of_le (by omega),
      extract_text_segments.eq_2 ([] : List Nat) (by simp)]
    rfl

/-- C8 (witness): the emission rules at concrete inputs — each conjunct of
the theorem instantiated (the payload-bearing codes with a 14-byte payload
and a following letter, the clamped case with a 3-byte truncated payload). -/
theorem paratext_control_emissions_witness :
    (extract_text_segments (le2 10 ++ [65, 0]) =
      prependText [10] (extract_text_segments [65, 0])) ∧
    (extract_text_segments (le2 24 ++ [65, 0]) =
      prependText [45] (extract_text_segments [65, 0])) ∧
    (extract_text_segments (le2 30 ++ [65, 0]) =
      prependText [32] (extract_text_segments [65, 0])) ∧
    (extract_text_segments (le2 31 ++ [65, 0]) =
      prependText [32] (extract_text_segments [65, 0])) ∧
    (extract_text_segments (le2 13 ++ [65, 0]) = extract_text_segments [65, 0]) ∧
    (extract_text_segments (le2 4 ++ (List.replicate 14 0 ++ [65, 0])) =
      extract_text_segments ((List.replicate 14 0 ++ [65, 0]).drop 14)) ∧
    (extract_text_segments (le2 9 ++ (List.replicate 14 0 ++ [65, 0])) =
      prependText [9] (extract_text_segments ((List.replicate 14 0 ++ [65, 0]).drop 14))) ∧
    (extract_text_segments (le2 11 ++ (List.replicate 14 0 ++ [65, 0])) =
      ⟨[], true⟩ :: extract_text_segments ((List.replicate 14 0 ++ [65, 0]).drop 14)) ∧
    (extract_text_segments (le2 9 ++ [1, 2, 3]) = [⟨[9], false⟩]) :=
  ⟨paratext_control_emissions.1 [65, 0],
    paratext_control_emissions.2.1 [65, 0],
    paratext_control_emissions.2.2.1 [65, 0],
    paratext_control_emissions.2.2.2.1 [65, 0],
    paratext_control_emissions.2.2.2.2.1 [65, 0],
    paratext_control_emissions.2.2.2.2.2.1 4 (List.replicate 14 0 ++ [65, 0]) (by decide),
    paratext_control_emissions.2.2.2.2.2.2.1 (List.replicate 14 0 ++ [65, 0]),
    paratext_control_emissions.2.2.2.2.2.2.2.1 11 (List.replicate 14 0 ++ [65, 0])
      (by decide),
    paratext_control_emissions.2.2.2.2.2.2.2.2 [1, 2, 3] (by decide)⟩

/-- C3 (counterexample): the PARA_TEXT body `[61, 216, 0, 222]` is the
UTF-16LE encoding of the surrogate pair for U+1F600 (high unit 0xD83D, low
unit 0xDE00); extraction yields no characters at all — the scalar 128512 is
not emitted, refuting the claim that adjacent surrogate units are recomposed
into the encoded scalar. -/
theorem surrogate_pair_dropped_counterexample :
    extract_text [61, 216, 0, 222] = ([], []) ∧
      ¬ 128512 ∈ (extract_text [61, 216, 0, 222]).1 := by
  have h : extract_text [61, 216, 0, 222] = ([], []) := by
    simp [extract_text, char_type, charFromU32]
  exact ⟨h, by rw [h]; simp⟩

/-- C3 (amended): surrogate code units are classified as normal characters
but `char::from_u32` rejects them, so a high surrogate followed by a low
surrogate contributes nothing to the extracted text or to the segments — the
pair is dropped unit by unit, never recomposed. -/
theorem surrogate_units_dropped (hi lo : Nat) (rest : List Nat)
    (hhi1 : 55296 ≤ hi) (hhi2 : hi < 56320) (hlo1 : 56320 ≤ lo) (hlo2 : lo < 57344) :
    extract_text (le2 hi ++ le2 lo ++ rest) = extract_text rest ∧
      extract_text_segments (le2 hi ++ le2 lo ++ rest) = extract_text_segments rest := by
  have hcthi : char_type hi = CharType.normal := by rw [char_type, if_pos (by omega)]
  have hctlo : char_type lo = CharType.normal := by rw [char_type, if_pos (by omega)]
  have hcfhi : charFromU32 hi = none := by rw [charFromU32, if_neg (by omega)]
  have hcflo : charFromU32 lo = none := by rw [charFromU32, if_neg (by omega)]
  constructor
  · rw [List.append_assoc, extract_text_step hi (le2 lo ++ rest) (by omega), hcthi]
    dsimp only
    rw [hcfhi]
    rw [extract_text_step lo rest (by omega), hctlo]
    dsimp only
    rw [hcflo]
  · rw [List.append_assoc, extract_text_segments_step hi (le2 lo ++ rest) (by omega), hcthi]
    dsimp only
    rw [hcfhi]
    dsimp only
    rw [extract_text_segments_step lo rest (by omega), hctlo]
    dsimp only
    rw [hcflo]
    dsimp only
    rw [prependText_nil _ (extract_text_segments_ne_nil rest),
      prependText_nil _ (extract_text_segments_ne_nil rest)]

/-- C3 (amended, witness): a concrete emoji surrogate pair before the letter
`A`: the output equals that of the tail alone. -/
theorem surrogate_units_dropped_witness :
    extract_text (le2 55357 ++ le2 56832 ++ [65, 0]) = extract_text [65, 0] ∧
      extract_text_segments (le2 55357 ++ le2 56832 ++ [65, 0]) =
        extract_text_segments [65, 0] :=
  surrogate_units_dropped 55357 56832 [65, 0] (by decide) (by decide) (by decide) (by decide)

/-! ## Record decoder: consumption (C1) and size encoding (C4) -/

theorem readRecordsLoop_short (pos : Nat) :
    ∀ (data : List Nat), data.length < 4 → readRecordsLoop pos data = .ok ([], data)
  | [], _ => by rw [readRecordsLoop.eq_def]
  | [_], _ => by rw [readRecordsLoop.eq_def]
  | [_, _], _ => by rw [readRecordsLoop.eq_def]
  | [_, _, _], _ => by rw [readRecordsLoop.eq_def]
  | _ :: _ :: _ :: _ :: _, h => absurd h (by simp)

theorem readRecordsLoop_leftover :
    ∀ n (data : List Nat), data.length ≤ n → ∀ pos recs leftover,
      readRecordsLoop pos data = .ok (recs, leftover) →
      leftover.length < 4 ∧ ∃ pre, data = pre ++ leftover := by
  intro n
  induction n with
  | zero =>
    intro data hlen pos recs leftover h
    rw [readRecordsLoop_short pos data (by omega)] at h
    cases h
    exact ⟨by omega, [], rfl⟩
  | succ m ih =>
    intro data hlen pos recs leftover h
    have step : ∀ (pfx rest : List Nat) (size pos2 : Nat) recs2 lf2,
        rest.length ≤ m →
        readRecordsLoop pos2 (rest.drop size) = .ok (recs2, lf2) →
        lf2.length < 4 ∧ ∃ pre, pfx ++ rest = pre ++ lf2 := by
      intro pfx rest size pos2 recs2 lf2 hlen2 hr
      have hd : (rest.drop size).length ≤ m := by
        simp only [List.length_drop]
        omega
      obtain ⟨h4, pre, hpre⟩ := ih _ hd _ _ _ hr
      refine ⟨h4, pfx ++ (rest.take size ++ pre), ?_⟩
      conv_lhs => rw [← List.take_append_drop size rest, hpre]
      simp [List.append_assoc]
    match data with
    | [] | [_] | [_, _] | [_, _, _] =>
      rw [readRecordsLoop_short pos _ (by simp)] at h
      cases h
      exact ⟨by simp, [], rfl⟩
    | b0 :: b1 :: b2 :: b3 :: rest =>
      have hrest : rest.length ≤ m := by
        simp at hlen
        omega
      match rest, hrest with
      | [], hrest | [_], hrest | [_, _], hrest | [_, _, _], hrest =>
        rw [readRecordsLoop.eq_2 _ _ _ _ _ _ (by simp)] at h
        split at h
        · cases h
        · split at h
          · cases h
          · split at h
            · cases h
            · rename_i recs2 leftover2 hr
              cases h
              exact step [b0, b1, b2, b3] _ _ _ _ _ hrest hr
      | c0 :: c1 :: c2 :: c3 :: rest2, hrest =>
        rw [readRecordsLoop.eq_1] at h
        dsimp only at h
        split at h
        · split at h
          · cases h
          · split at h
            · cases h
            · rename_i recs2 leftover2 hr
              cases h
              exact step [b0, b1, b2, b3, c0, c1, c2, c3] rest2 _ _ _ _
                (by simp at hrest; omega) hr
        · split at h
          · cases h
          · split at h
            · cases h
            · rename_i recs2 leftover2 hr
              cases h
              exact step [b0, b1, b2, b3] (c0 :: c1 :: c2 :: c3 :: rest2) _ _ _ _ hrest hr

/-- C1 (amended): when `read_records` succeeds, the parsed records partition
the buffer up to a trailing fragment of fewer than 4 bytes, which the loop
leaves unconsumed (the loop guard `pos + 4 <= len` exits on it). -/
theorem read_records_consumes_to_last_fragment (data : List Nat) (recs : List Record)
    (h : read_records data = .ok recs) :
    ∃ leftover pre, readRecordsLoop 0 data = .ok (recs, leftover) ∧
      data = pre ++ leftover ∧ leftover.length < 4 := by
  rw [read_records] at h
  cases hr : readRecordsLoop 0 data with
  | error e => rw [hr] at h; cases h
  | ok p =>
    obtain ⟨rs, lf⟩ := p
    rw [hr] at h
    simp only [Except.map] at h
    cases h
    obtain ⟨h4, pre, hpre⟩ := readRecordsLoop_leftover data.length data le_rfl 0 recs lf hr
    exact ⟨lf, pre, rfl, hpre, h4⟩

/-- C1 (witness): instantiation of the amended consumption theorem on a
concrete buffer holding one zero-size record and a 2-byte trailing fragment. -/
theorem read_records_consumes_to_last_fragment_witness :
    ∃ leftover pre, readRecordsLoop 0 [16, 0, 0, 0, 7, 9] = .ok ([⟨⟨16, 0, 0⟩, []⟩], leftover) ∧
      [16, 0, 0, 0, 7, 9] = pre ++ leftover ∧ leftover.length < 4 :=
  read_records_consumes_to_last_fragment [16, 0, 0, 0, 7, 9] [⟨⟨16, 0, 0⟩, []⟩]
    (by simp [read_records, readRecordsLoop, leU32, Except.map])

/-- One unfolding step of the record loop on a buffer with at least a full
packed header available. -/
theorem readRecordsLoop_cons (pos b0 b1 b2 b3 : Nat) (rest : List Nat) :
    readRecordsLoop pos (b0 :: b1 :: b2 :: b3 :: rest) =
      (let value := leU32 b0 b1 b2 b3
      let size := value / 1048576 % 4096
      if size = 4095 then
        match rest with
        | c0 :: c1 :: c2 :: c3 :: rest2 =>
          let size2 := leU32 c0 c1 c2 c3
          if rest2.length < size2 then .error (.parse size2 (pos + 8) rest2.length)
          else
            match readRecordsLoop (pos + 8 + size2) (rest2.drop size2) with
            | .error e => .error e
            | .ok (recs, leftover) =>
              .ok (⟨⟨value % 1024, value / 1024 % 1024, size2⟩, rest2.take size2⟩ :: recs,
                leftover)
        | _ => .error .invalidRecordHeader
      else
        if rest.length < size then .error (.parse size (pos + 4) rest.length)
        else
          match readRecordsLoop (pos + 4 + size) (rest.drop size) with
          | .error e => .error e
          | .ok (recs, leftover) =>
            .ok (⟨⟨value % 1024, value / 1024 % 1024, size⟩, rest.take size⟩ :: recs,
              leftover)) := by
  match rest with
  | [] => rw [readRecordsLoop.eq_2 _ _ _ _ _ _ (by simp)]
  | [_] => rw [readRecordsLoop.eq_2 _ _ _ _ _ _ (by simp)]
  | [_, _] => rw [readRecordsLoop.eq_2 _ _ _ _ _ _ (by simp)]
  | [_, _, _] => rw [readRecordsLoop.eq_2 _ _ _ _ _ _ (by simp)]
  | c0 :: c1 :: c2 :: c3 :: rest2 => rw [readRecordsLoop.eq_1]

/-- The 4-byte packed record header `tag(10) | level(10) | size(12)`,
little-endian. -/
def packHeader (tag level size : Nat) : List Nat :=
  le4 (tag + 1024 * level + 1048576 * size)

theorem packHeader_cons (tag level size : Nat) (t : List Nat) :
    packHeader tag level size ++ t =
      (tag + 1024 * level + 1048576 * size) % 256 ::
      (tag + 1024 * level + 1048576 * size) / 256 % 256 ::
      (tag + 1024 * level + 1048576 * size) / 65536 % 256 ::
      (tag + 1024 * level + 1048576 * size) / 16777216 % 256 :: t := by
  simp [packHeader, le4]

theorem record_step_noext (pos tag level size : Nat) (body rest : List Nat)
    (htag : tag < 1024) (hlev : level < 1024) (hsz : size < 4095)
    (hbody : body.length = size) :
    readRecordsLoop pos (packHeader tag level size ++ body ++ rest) =
      (readRecordsLoop (pos + 4 + size) rest).map
        (fun p => (⟨⟨tag, level, size⟩, body⟩ :: p.1, p.2)) := by
  rw [List.append_assoc, packHeader_cons, readRecordsLoop_cons]
  dsimp only
  rw [leU32_le4,
    Nat.mod_eq_of_lt (show tag + 1024 * level + 1048576 * size < 4294967296 by omega)]
  have h1 : (tag + 1024 * level + 1048576 * size) / 1048576 % 4096 = size := by omega
  have h2 : (tag + 1024 * level + 1048576 * size) % 1024 = tag := by omega
  have h3 : (tag + 1024 * level + 1048576 * size) / 1024 % 1024 = level := by omega
  rw [h1, h2, h3, if_neg (by omega), if_neg (by rw [List.length_append, hbody]; omega)]
  rw [← hbody, List.drop_left, List.take_left]
  cases hres : readRecordsLoop (pos + 4 + body.length) rest with
  | error e => simp [Except.map]
  | ok p => simp [Except.map]

theorem record_step_ext (pos tag level size2 : Nat) (body rest : List Nat)
    (htag : tag < 1024) (hlev : level < 1024) (hsz : size2 < 4294967296)
    (hbody : body.length = size2) :
    readRecordsLoop pos (packHeader tag level 4095 ++ le4 size2 ++ body ++ rest) =
      (readRecordsLoop (pos + 8 + size2) rest).map
        (fun p => (⟨⟨tag, level, size2⟩, body⟩ :: p.1, p.2)) := by
  rw [List.append_assoc, List.append_assoc, packHeader_cons]
  rw [show le4 size2 ++ (body ++ rest) =
    size2 % 256 :: size2 / 256 % 256 :: size2 / 65536 % 256 ::
      size2 / 16777216 % 256 :: (body ++ rest) from by simp [le4]]
  rw [readRecordsLoop_cons]
  dsimp only
  rw [leU32_le4, leU32_le4,
    Nat.mod_eq_of_lt (show tag + 1024 * level + 1048576 * 4095 < 4294967296 by omega),
    Nat.mod_eq_of_lt (show size2 < 4294967296 from hsz)]
  have h1 : (tag + 1024 * level + 1048576 * 4095) / 1048576 % 4096 = 4095 := by omega
  have h2 : (tag + 1024 * level + 1048576 * 4095) % 1024 = tag := by omega
  have h3 : (tag + 1024 * level + 1048576 * 4095) / 1024 % 1024 = level := by omega
  rw [h1, h2, h3, if_pos rfl, if_neg (by rw [List.length_append, hbody]; omega)]
  rw [← hbody, List.drop_left, List.take_left]
  cases hres : readRecordsLoop (pos + 8 + body.length) rest with
  | error e => simp [Except.map]
  | ok p => simp [Except.map]

theorem record_ext_truncated (pos tag level : Nat) (t : List Nat)
    (htag : tag < 1024) (hlev : level < 1024) (ht : t.length < 4) :
    readRecordsLoop pos (packHeader tag level 4095 ++ t) = .error .invalidRecordHeader := by
  rw [packHeader_cons, readRecordsLoop_cons]
  dsimp only
  rw [leU32_le4,
    Nat.mod_eq_of_lt (show tag + 1024 * level + 1048576 * 4095 < 4294967296 by omega)]
  have h1 : (tag + 1024 * level + 1048576 * 4095) / 1048576 % 4096 = 4095 := by omega
  rw [h1, if_pos rfl]
  match t, ht with
  | [], _ => rfl
  | [_], _ => rfl
  | [_, _], _ => rfl
  | [_, _, _], _ => rfl

theorem record_body_overflow (pos tag level size : Nat) (rest : List Nat)
    (htag : tag < 1024) (hlev : level < 1024) (hsz : size < 4095)
    (hover : rest.length < size) :
    readRecordsLoop pos (packHeader tag level size ++ rest) =
      .error (.parse size (pos + 4) rest.length) := by
  rw [packHeader_cons, readRecordsLoop_cons]
  dsimp only
  rw [leU32_le4,
    Nat.mod_eq_of_lt (show tag + 1024 * level + 1048576 * size < 4294967296 by omega)]
  have h1 : (tag + 1024 * level + 1048576 * size) / 1048576 % 4096 = size := by omega
  rw [h1, if_neg (by omega), if_pos hover]

/-- C4: a packed header with 12-bit size field below `0xFFF` is followed
directly by its body (no extended word is consumed); a size field equal to
`0xFFF` consumes exactly 4 extra little-endian bytes holding the true size,
so bodies larger than 4095 bytes are representable; a missing extended word
(fewer than 4 bytes after the packed header) yields the
invalid-record-header error; a body reaching past the end of the buffer
yields a parse error. -/
theorem record_size_encoding :
    (∀ pos tag level size (body rest : List Nat), tag < 1024 → level < 1024 →
      size < 4095 → body.length = size →
      readRecordsLoop pos (packHeader tag level size ++ body ++ rest) =
        (readRecordsLoop (pos + 4 + size) rest).map
          (fun p => (⟨⟨tag, level, size⟩, body⟩ :: p.1, p.2))) ∧
    (∀ pos tag level size2 (body rest : List Nat), tag < 1024 → level < 1024 →
      size2 < 4294967296 → body.length = size2 →
      readRecordsLoop pos (packHeader tag level 4095 ++ le4 size2 ++ body ++ rest) =
        (readRecordsLoop (pos + 8 + size2) rest).map
          (fun p => (⟨⟨tag, level, size2⟩, body⟩ :: p.1, p.2))) ∧
    (∀ pos tag level (t : List Nat), tag < 1024 → level < 1024 → t.length < 4 →
      readRecordsLoop pos (packHeader tag level 4095 ++ t) =
        .error .invalidRecordHeader) ∧
    (∀ pos tag level size (rest : List Nat), tag < 1024 → level < 1024 → size < 4095 →
      rest.length < size →
      readRecordsLoop pos (packHeader tag level size ++ rest) =
        .error (.parse size (pos + 4) rest.length)) :=
  ⟨fun pos tag level size body rest h1 h2 h3 h4 =>
      record_step_noext pos tag level size body rest h1 h2 h3 h4,
    fun pos tag level size2 body rest h1 h2 h3 h4 =>
      record_step_ext pos tag level size2 body rest h1 h2 h3 h4,
    fun pos tag level t h1 h2 h3 => record_ext_truncated pos tag level t h1 h2 h3,
    fun pos tag level size rest h1 h2 h3 h4 =>
      record_body_overflow pos tag level size rest h1 h2 h3 h4⟩

/-- C4 (witness): the four parts of the size-encoding theorem at concrete
inputs — a 2-byte body with size field 2, a 5000-byte body behind the
`0xFFF` sentinel (the buffer of the crate's own `test_record_header_extended_size`),
a truncated extended word, and an overflowing body. -/
theorem record_size_encoding_witness :
    (readRecordsLoop 0 (packHeader 16 0 2 ++ [7, 8] ++ []) =
      (readRecordsLoop 6 []).map (fun p => (⟨⟨16, 0, 2⟩, [7, 8]⟩ :: p.1, p.2))) ∧
    (readRecordsLoop 0 (packHeader 67 1 4095 ++ le4 5000 ++ List.replicate 5000 0 ++ []) =
      (readRecordsLoop 5008 []).map
        (fun p => (⟨⟨67, 1, 5000⟩, List.replicate 5000 0⟩ :: p.1, p.2))) ∧
    (readRecordsLoop 0 (packHeader 16 0 4095 ++ [1, 2]) = .error .invalidRecordHeader) ∧
    (readRecordsLoop 0 (packHeader 16 0 100 ++ [1, 2]) = .error (.parse 100 4 2)) :=
  ⟨record_size_encoding.1 0 16 0 2 [7, 8] [] (by decide) (by decide) (by decide) (by decide),
    record_size_encoding.2.1 0 67 1 5000 (List.replicate 5000 0) [] (by decide) (by decide)
      (by decide) (List.length_replicate 5000 0),
    record_size_encoding.2.2.1 0 16 0 [1, 2] (by decide) (by decide) (by decide),
    record_size_encoding.2.2.2 0 16 0 100 [1, 2] (by decide) (by decide) (by decide)
      (by decide)⟩

/-- C1 (counterexample): on the 2-byte buffer `[16, 0]` the parser returns
`Ok` with an empty record list while the whole nonempty buffer is left
unconsumed — refuting "it never returns Ok while leaving a suffix of `b`
unconsumed". -/
theorem read_records_partial_ok_counterexample :
    read_records [16, 0] = .ok [] ∧ readRecordsLoop 0 [16, 0] = .ok ([], [16, 0]) ∧
      ([16, 0] : List Nat) ≠ [] := by
  refine ⟨?_, ?_, by simp⟩ <;> simp [read_records, readRecordsLoop, Except.map]

/-! ## Markdown table formatter (`src/extract.rs`) -/

/-- `s.replace('|', "\\|")` on byte lists: every `|` (124) becomes `\`
(92) followed by `|`. -/
def replacePipe : List Nat → List Nat
  | [] => []
  | c :: rest => if c = 124 then 92 :: 124 :: replacePipe rest else c :: replacePipe rest

/-- `s.replace('\n', " ")` on byte lists: every newline becomes a space. -/
def replaceNl : List Nat → List Nat
  | [] => []
  | c :: rest => (if c = 10 then 32 else c) :: replaceNl rest

/-- `escape_markdown_cell` (`src/extract.rs:191-193`). -/
def escape_markdown_cell (s : List Nat) : List Nat :=
  replaceNl (replacePipe s)

/-- `trim_end_matches('\n')`: drop every trailing newline. -/
def trimEndNl (s : List Nat) : List Nat :=
  (s.reverse.dropWhile (fun c => c = 10)).reverse

/-- The 2D grid construction of `format_markdown_table`
(`src/extract.rs:196-208`): a `rows` x `cols` grid of empty cells, filled
from the `(col, row, content)` triples; out-of-range cells are dropped. -/
def gridOf (cells : List (Nat × Nat × List Nat)) (rows cols : Nat) :
    List (List (List Nat)) :=
  cells.foldl
    (fun g cell =>
      if cell.2.1 < rows ∧ cell.1 < cols then
        g.set cell.2.1 ((g.getD cell.2.1 []).set cell.1 cell.2.2)
      else g)
    (List.replicate rows (List.replicate cols []))

/-- The inner cell loop of `format_markdown_table` (`src/extract.rs:213-218`):
per cell a space, the escaped trimmed content, then `" |"`. -/
def renderCells : List (List Nat) → List Nat
  | [] => []
  | cell :: rest => (32 :: escape_markdown_cell (trimEndNl cell)) ++ 32 :: 124 :: renderCells rest

/-- The separator units `" --- |"` repeated (`src/extract.rs:223-226`). -/
def sepCells : Nat → List Nat
  | 0 => []
  | n + 1 => 32 :: 45 :: 45 :: 45 :: 32 :: 124 :: sepCells n

/-- The row loop of `format_markdown_table` (`src/extract.rs:211-229`): each
row is `|` + cells + newline, and after row 0 a separator row `|` + units +
newline. -/
def renderRows : Nat → Nat → List (List (List Nat)) → List Nat
  | _, _, [] => []
  | i, cols, row :: rest =>
    (124 :: renderCells row) ++ [10] ++
      (if i = 0 then 124 :: sepCells cols ++ [10] else []) ++ renderRows (i + 1) cols rest

/-- `format_markdown_table` (`src/extract.rs:196-232`). -/
def format_markdown_table (cells : List (Nat × Nat × List Nat)) (rows cols : Nat) :
    List Nat :=
  renderRows 0 cols (gridOf cells rows cols)

def listJoin : List (List Nat) → List Nat
  | [] => []
  | l :: ls => l ++ listJoin ls

/-- The spec's escape law for a cell content: trailing newlines trimmed,
every `|` replaced by `\|`, every `\n` replaced by a space. -/
def specEscape (c : List Nat) : List Nat :=
  replaceNl (replacePipe (trimEndNl c))

/-- The spec's emitted cell: `" " + escape(c) + " |"`. -/
def specCell (c : List Nat) : List Nat :=
  32 :: specEscape c ++ [32, 124]

/-- A spec grid row: `"|"`, the emitted cells in order, a newline. -/
def specRowLine (row : List (List Nat)) : List Nat :=
  124 :: listJoin (row.map specCell) ++ [10]

/-- The spec separator row: `"|"` then `" --- |"` repeated `cols` times. -/
def specSepLine (cols : Nat) : List Nat :=
  124 :: listJoin (List.replicate cols [32, 45, 45, 45, 32, 124]) ++ [10]

/-- Spec-side rendering: first row, separator, remaining rows. -/
def specRender (grid : List (List (List Nat))) (cols : Nat) : List Nat :=
  match grid with
  | [] => []
  | r0 :: rs => specRowLine r0 ++ specSepLine cols ++ listJoin (rs.map specRowLine)

theorem renderCells_spec (row : List (List Nat)) :
    renderCells row = listJoin (row.map specCell) := by
  induction row with
  | nil => rfl
  | cons cell rest ih =>
    simp [renderCells, listJoin, specCell, specEscape, escape_markdown_cell, ih]

theorem sepCells_spec (n : Nat) :
    sepCells n = listJoin (List.replicate n [32, 45, 45, 45, 32, 124]) := by
  induction n with
  | zero => rfl
  | succ m ih => simp [sepCells, List.replicate_succ, listJoin, ih]

theorem renderRows_tail (grid : List (List (List Nat))) :
    ∀ (i cols : Nat), renderRows (i + 1) cols grid = listJoin (grid.map specRowLine) := by
  induction grid with
  | nil => intro i cols; rfl
  | cons row rest ih =>
    intro i cols
    rw [renderRows, if_neg (by omega), ih]
    simp [listJoin, specRowLine, renderCells_spec]

/-- C7: the Markdown formatter renders its grid exactly per the spec's cell
law — every cell is emitted as a space, the escaped content (`|` becomes
`\|`, `\n` becomes a space, trailing newlines trimmed), then `" |"` — rows
are pipe-prefixed and newline-terminated, and a separator row of `" --- |"`
repeated `cols` times follows the first grid row. -/
theorem format_markdown_table_spec (cells : List (Nat × Nat × List Nat)) (rows cols : Nat) :
    format_markdown_table cells rows cols = specRender (gridOf cells rows cols) cols := by
  rw [format_markdown_table]
  cases hg : gridOf cells rows cols with
  | nil => rfl
  | cons r0 rs =>
    rw [renderRows, if_pos rfl, specRender, renderRows_tail]
    simp [specRowLine, specSepLine, renderCells_spec, sepCells_spec]

example :
    format_markdown_table [(0, 0, [65]), (1, 0, [66, 10])] 1 2 =
      [124, 32, 65, 32, 124, 32, 66, 32, 124, 10,
       124, 32, 45, 45, 45, 32, 124, 32, 45, 45, 45, 32, 124, 10] := by decide

end Hwarang

